import Mathlib

/-!
Verification development for the MTH9815 bond trading system.

Shallow embedding conventions:
* C++ `double` prices are modelled as exact rationals (`ℚ`).  Every price in
  the system lives on the 1/256 grid, and every double operation performed on
  them (sums, differences, multiplication and division by powers of two,
  parsing of small decimal integers) is exact on that grid, so `ℚ` is a
  faithful model of the actual double computations.
* `std::string` values manipulated character-by-character (the price codec)
  are modelled as `List Char`; keys, tickers and book names that are only
  compared and concatenated are modelled as `String`.
* `std::unordered_map` is modelled as an association list in first-insertion
  order (`operator[]` assignment updates in place or appends); `long` counters
  that are only ever incremented from 0 are modelled as `ℕ`; `long`
  quantities are modelled as `ℤ` with `Int.tdiv` for C++ truncating division.
* Listener call-outs are modelled as explicit event lists returned by each
  operation, in invocation order.
-/

/-- Pricing side of an order (marketdataservice.hpp, used throughout src). -/
inductive PricingSide where
  | BID : PricingSide
  | OFFER : PricingSide
deriving DecidableEq

export PricingSide (BID OFFER)

/-- Buy/sell side of a trade or inquiry (tradebookingservice.hpp). -/
inductive Side where
  | BUY : Side
  | SELL : Side
deriving DecidableEq

export Side (BUY SELL)

/-- Execution order type (executionservice.hpp); `SendOrder` only ever uses
`MARKET`. -/
inductive OrderType where
  | FOK : OrderType
  | IOC : OrderType
  | MARKET : OrderType
  | LIMIT : OrderType
  | STOP : OrderType
deriving DecidableEq

export OrderType (MARKET)

/-- Inquiry state machine states (inquiryservice.hpp). -/
inductive InquiryState where
  | RECEIVED : InquiryState
  | QUOTED : InquiryState
  | DONE : InquiryState
  | REJECTED : InquiryState
  | CUSTOMER_REJECTED : InquiryState
deriving DecidableEq

export InquiryState (RECEIVED QUOTED DONE REJECTED CUSTOMER_REJECTED)

/-- Modelled from the spec: the `Bond` product class lives in the missing
`products.hpp`; spec section 3 gives its fields (product id / CUSIP, ticker,
coupon, maturity date) and `MakeBond` in src/tradingsystem/utils.hpp shows the
constructor argument order.  The maturity date is kept as its source string. -/
structure Bond where
  productId : String
  ticker : String
  coupon : ℚ
  maturity : String
deriving DecidableEq

/-- Embeds `MakeBond` from src/tradingsystem/utils.hpp: the 7-bond static
reference table keyed on CUSIP (unknown CUSIPs give a default bond). -/
def MakeBond (cusip : String) : Bond :=
  if cusip = "91282CJL6" then ⟨cusip, "US2Y", 4875/100000, "2025/11/30"⟩
  else if cusip = "91282CJK8" then ⟨cusip, "US3Y", 4625/100000, "2026/11/15"⟩
  else if cusip = "91282CJN2" then ⟨cusip, "US5Y", 4375/100000, "2028/11/30"⟩
  else if cusip = "91282CJM4" then ⟨cusip, "US7Y", 4375/100000, "2030/11/30"⟩
  else if cusip = "91282CJJ1" then ⟨cusip, "US10Y", 45/1000, "2033/11/15"⟩
  else if cusip = "912810TW8" then ⟨cusip, "US20Y", 475/10000, "2043/11/15"⟩
  else if cusip = "912810TV0" then ⟨cusip, "US30Y", 475/10000, "2053/11/15"⟩
  else ⟨"", "", 0, ""⟩

/-! ### Price codec (src/tradingsystem/utils.hpp, StringToPrice / PriceToString)

`std::to_string` on a non-negative integer and `std::stod` on a digit string
are modelled by `natToString` / `parseNat` over `List Char`; both are plain
decimal conversions. -/

/-- The decimal digit character for `d` (0–9). -/
def digitChar (d : ℕ) : Char :=
  match d with
  | 0 => '0' | 1 => '1' | 2 => '2' | 3 => '3' | 4 => '4'
  | 5 => '5' | 6 => '6' | 7 => '7' | 8 => '8' | _ => '9'

/-- Numeric value of a decimal digit character. -/
def charToDigit (c : Char) : ℕ := c.toNat - 48

/-- Big-endian decimal digits of `n`, with explicit fuel (any fuel at least
`n` is enough). -/
def toDigitsAux : ℕ → ℕ → List Char
  | 0, _ => []
  | fuel + 1, n =>
    if n = 0 then []
    else toDigitsAux fuel (n / 10) ++ [digitChar (n % 10)]

/-- Decimal rendering of a natural number, as produced by `std::to_string`. -/
def natToString (n : ℕ) : List Char :=
  if n = 0 then ['0'] else toDigitsAux (n + 1) n

/-- Decimal parsing of a digit string, as consumed by `std::stod`/`std::stol`
on integral input. -/
def parseNat (s : List Char) : ℕ :=
  s.foldl (fun acc c => 10 * acc + charToDigit c) 0

/-- Splitting a character list at every dash: the model of
`boost::algorithm::split(row, s, is_any_of("-"))`. -/
def splitDash : List Char → List (List Char)
  | [] => [[]]
  | c :: cs =>
    match splitDash cs with
    | [] => [[]]
    | t :: ts => if c = '-' then [] :: t :: ts else (c :: t) :: ts

/-- Embeds `StringToPrice` from src/tradingsystem/utils.hpp: split on the
dash, read the whole part, the two-digit 32nds part and the one-character
eighths part (`+` standing for 4), and return
`whole + thirtyseconds/32 + eighths/256`. -/
def StringToPrice (s_price : List Char) : ℚ :=
  let tokens := splitDash s_price
  let integer_str := tokens.getD 0 []
  let frac := tokens.getD 1 []
  let thirtysec := frac.take 2
  let eighth := (frac.drop 2).take 3
  let eighth' := if eighth = ['+'] then ['4'] else eighth
  (parseNat integer_str : ℚ) + (parseNat thirtysec : ℚ) / 32
    + (parseNat eighth' : ℚ) / 256

/-- Embeds `PriceToString` from src/tradingsystem/utils.hpp: whole part, a
dash, the zero-padded two-digit 32nds component, and the eighths character
with `+` for 4.  `std::floor` and the `int` casts are exact floors here since
all intermediate values are non-negative. -/
def PriceToString (d_price : ℚ) : List Char :=
  let int_price : ℕ := (Int.floor d_price).toNat
  let remainder : ℚ := d_price - int_price
  let thirtysec_delta : ℚ := remainder / (1 / 32)
  let thirtysec : ℕ := (Int.floor thirtysec_delta).toNat
  let pad : List Char := if thirtysec < 10 then ['0'] else []
  let eighth : ℕ := (Int.floor ((thirtysec_delta - thirtysec) / (1 / 8))).toNat
  let echar : List Char := if eighth = 4 then ['+'] else natToString eighth
  natToString int_price ++ ['-'] ++ pad ++ natToString thirtysec ++ echar

/-! ### Orders, order books, best bid/offer -/

/-- Modelled from the spec: the `Order` class lives in the missing
`marketdataservice.hpp`; spec section 3 gives its fields and the src call
`Order(order_price, order_size, side)` the constructor order. -/
structure Order where
  price : ℚ
  quantity : ℤ
  side : PricingSide
deriving DecidableEq

/-- Modelled from the spec: the `OrderBook` class lives in the missing
`marketdataservice.hpp`; spec section 3: instrument plus bid and offer order
stacks, constructed in src as `OrderBook(bond, bid_stack, offer_stack)`. -/
structure OrderBook where
  product : Bond
  bidStack : List Order
  offerStack : List Order
deriving DecidableEq

/-- Modelled from the spec: `BidOffer` (missing `marketdataservice.hpp`) is
the pair of the best bid order and the best offer order. -/
structure BidOffer where
  bidOrder : Order
  offerOrder : Order
deriving DecidableEq

/-- Embeds `find_best_order` from src/tradingsystem/utils.hpp: scan the stack
keeping the order with the strictly better price (highest for BID, lowest for
OFFER), so the first occurrence wins on ties.  The C++ function indexes
`order_stack[0]`, so it is only ever called on non-empty stacks; the empty
case returns a zero order. -/
def find_best_order (order_stack : List Order) (side : PricingSide) : Order :=
  let comparator : ℚ → ℚ → Prop := fun a b => if side = BID then a > b else a < b
  match order_stack with
  | [] => ⟨0, 0, side⟩
  | best :: rest =>
    rest.foldl
      (fun best_order o =>
        if comparator o.price best_order.price then o else best_order)
      best

/-- Modelled from the spec: `OrderBook::GetBestBidOffer` lives in the missing
`marketdataservice.hpp`.  Spec section 4.2: the BidOffer with the numerically
highest bid price and numerically lowest offer price, first occurrence
winning ties — which is exactly `find_best_order` (src/tradingsystem/utils.hpp)
applied to each stack. -/
def OrderBook.GetBestBidOffer (book : OrderBook) : BidOffer :=
  ⟨find_best_order book.bidStack BID, find_best_order book.offerStack OFFER⟩

/-! ### Association-list model of `std::unordered_map` -/

/-- `operator[]` assignment on an `std::unordered_map`: update the existing
entry in place, or append a fresh one.  Iteration order of the model is
first-insertion order; since the C++ map never holds duplicate keys,
replacing the first matching entry is the same as replacing the entry. -/
def mapInsert {α : Type} : List (String × α) → String → α → List (String × α)
  | [], k, v => [(k, v)]
  | kv :: rest, k, v =>
    if kv.1 = k then (k, v) :: rest else kv :: mapInsert rest k v

theorem lookup_mapInsert {α : Type} (m : List (String × α)) (k : String)
    (v : α) : (mapInsert m k v).lookup k = some v := by
  induction m with
  | nil => simp [mapInsert, List.lookup]
  | cons kv rest ih =>
    by_cases hk : kv.1 = k
    · simp [mapInsert, hk, List.lookup]
    · have hk' : (k == kv.1) = false := by
        simp only [beq_eq_false_iff_ne, ne_eq]
        exact fun he => hk he.symm
      simp [mapInsert, hk, List.lookup, hk', ih]

theorem lookup_mapInsert_ne {α : Type} (m : List (String × α)) (k k' : String)
    (v : α) (hne : k' ≠ k) :
    (mapInsert m k v).lookup k' = m.lookup k' := by
  induction m with
  | nil =>
    have : (k' == k) = false := by simp only [beq_eq_false_iff_ne, ne_eq]; exact hne
    simp [mapInsert, List.lookup, this]
  | cons kv rest ih =>
    by_cases hk : kv.1 = k
    · have h1 : (k' == k) = false := by
        simp only [beq_eq_false_iff_ne, ne_eq]; exact hne
      have h2 : (k' == kv.1) = false := by
        simp only [beq_eq_false_iff_ne, ne_eq, hk]; exact hne
      simp [mapInsert, hk, List.lookup, h1, h2]
    · simp only [mapInsert, if_neg hk, List.lookup]
      cases hkk : (k' == kv.1) <;> simp [ih]

/-! ### Depth aggregation (src/tradingsystem/Bond/BondMarketDataService.hpp,
`BondMarketDataService::AggregateDepth`) -/

/-- One step of the price→quantity merge map: `bid_map.find(price)` /
`bid_map[price] += quantity` / `bid_map[price] = quantity` on the
`std::unordered_map<double, long>`, modelled in first-insertion order. -/
def addOrderQty : List (ℚ × ℤ) → ℚ → ℤ → List (ℚ × ℤ)
  | [], p, q => [(p, q)]
  | e :: rest, p, q =>
    if e.1 = p then (e.1, e.2 + q) :: rest else e :: addOrderQty rest p q

/-- The merge map built by the BIDS/OFFERS loops of `AggregateDepth`. -/
def buildDepthMap (stack : List Order) : List (ℚ × ℤ) :=
  stack.foldl (fun m o => addOrderQty m o.price o.quantity) []

/-- The merged stack created from the merge map (`new_bids` / `new_offers`). -/
def mergeStack (stack : List Order) (side : PricingSide) : List Order :=
  (buildDepthMap stack).map (fun pq => ⟨pq.1, pq.2, side⟩)

/-- Embeds `BondMarketDataService::AggregateDepth` acting on the stored book
for `productId`: merge same-price orders on each side and rebuild the book
with `MakeBond(productId)`; the result replaces the stored book. -/
def AggregateDepth (productId : String) (book : OrderBook) : OrderBook :=
  ⟨MakeBond productId, mergeStack book.bidStack BID,
    mergeStack book.offerStack OFFER⟩

/-! ### Algo execution (src/tradingsystem/Bond/BondAlgoExecutionService.hpp) -/

/-- Modelled from the spec: the `ExecutionOrder` class lives in the missing
`executionservice.hpp`; spec section 3 gives the fields and the src call
`ExecutionOrder(bond, side, order_id, MARKET, 1., visible_qnt, hidden_qnt,
"", false)` the constructor order. -/
structure ExecutionOrder where
  product : Bond
  side : PricingSide
  orderId : String
  orderType : OrderType
  price : ℚ
  visibleQuantity : ℤ
  hiddenQuantity : ℤ
  parentOrderId : String
  isChildOrder : Bool
deriving DecidableEq

/-- `AlgoExecution<Bond>`: a wrapper around an `ExecutionOrder`
(src/tradingsystem/Bond/BondAlgoExecutionService.hpp). -/
structure AlgoExecution where
  order : ExecutionOrder
deriving DecidableEq

/-- The mutable state of `BondAlgoExecutionService`: the stored algo
executions keyed on product id, and the side counter (a `long` starting at 0
and only incremented, hence `ℕ`). -/
structure AlgoExecState where
  algoExecs : List (String × AlgoExecution)
  counter : ℕ
deriving DecidableEq

/-- Embeds `BondAlgoExecutionService::SendOrder`.  Listeners are modelled by
their ids; the returned list is the sequence of `ProcessUpdate` call-outs.
The C++ parity test `if (counter_ % 2)` is true exactly when the
(non-negative) counter is odd. -/
def SendOrder (listeners : List ℕ) (svc : AlgoExecState)
    (orderBook : OrderBook) : AlgoExecState × List (ℕ × AlgoExecution) :=
  let id := orderBook.product.productId
  let best := orderBook.GetBestBidOffer
  let minimum_spread : ℚ := 1 / 128
  if best.bidOrder.price - best.offerOrder.price ≥ minimum_spread then
    let bond := orderBook.product
    let order_id := bond.ticker ++ "57747FFC" ++ toString svc.counter
    let sideQty : PricingSide × ℤ :=
      if svc.counter % 2 = 1 then (BID, best.bidOrder.quantity)
      else (OFFER, best.offerOrder.quantity)
    let all_qnt := sideQty.2
    let visible_qnt := Int.tdiv all_qnt 4
    let hidden_qnt := all_qnt - visible_qnt
    let order : ExecutionOrder :=
      ⟨bond, sideQty.1, order_id, MARKET, 1, visible_qnt, hidden_qnt, "", false⟩
    let algo : AlgoExecution := ⟨order⟩
    ({algoExecs := mapInsert svc.algoExecs id algo, counter := svc.counter + 1},
      listeners.map (fun l => (l, algo)))
  else (svc, [])

/-! ### Positions (src/tradingsystem/positionservice.hpp and
src/tradingsystem/Bond/BondPositionService.hpp) -/

/-- `Position<Bond>`: product plus the per-book signed quantity map
(`std::map<string, long>`).  The claims proved here are insensitive to entry
order, so the key-sorted C++ map is modelled in insertion order. -/
structure Position where
  product : Bond
  positions : List (String × ℤ)
deriving DecidableEq

/-- The update step of `Position::AddPosition`: `positions[book] += size` if
the book is present, `positions[book] = size` otherwise. -/
def addBookQty : List (String × ℤ) → String → ℤ → List (String × ℤ)
  | [], book, size => [(book, size)]
  | e :: rest, book, size =>
    if e.1 = book then (e.1, e.2 + size) :: rest
    else e :: addBookQty rest book size

/-- Embeds `Position::AddPosition`. -/
def Position.AddPosition (pos : Position) (book : String) (size : ℤ) :
    Position :=
  {pos with positions := addBookQty pos.positions book size}

/-- Embeds `Position::GetAggregatePosition`: sum of all per-book entries. -/
def Position.GetAggregatePosition (pos : Position) : ℤ :=
  (pos.positions.map (fun e => e.2)).sum

/-- `Trade<Bond>` (missing `tradebookingservice.hpp`); fields and order from
spec section 3 and the src call
`Trade(bond, trade_id, price, book, quantity, side)`. -/
structure Trade where
  product : Bond
  tradeId : String
  price : ℚ
  book : String
  quantity : ℤ
  side : Side
deriving DecidableEq

/-- Embeds `BondPositionService::AddTrade` acting on the stored position map:
fetch (or default-create, as `operator[]` does) the instrument's position,
negate the quantity for SELL trades, add it to the trade's book, store the
updated position back, and notify each listener with `ProcessUpdate` then
`ProcessAdd` carrying the post-update position. -/
def AddTrade (listeners : List ℕ) (positions : List (String × Position))
    (trade : Trade) : List (String × Position) × List (ℕ × Position) :=
  let id := trade.product.productId
  let position_obj := (positions.lookup id).getD ⟨⟨"", "", 0, ""⟩, []⟩
  let quantity := if trade.side = SELL then -trade.quantity else trade.quantity
  let updated := position_obj.AddPosition trade.book quantity
  (mapInsert positions id updated, listeners.map (fun l => (l, updated)))

/-! ### Trade booking (src/tradingsystem/Bond/BondTradeBookingService.hpp) -/

/-- The fixed book rotation list of `BondTradeBookingListener`. -/
def books3 : List String := ["TRSY1", "TRSY2", "TRSY3"]

/-- Embeds `BondTradeBookingListener::ProcessAdd`: synthesize a trade from a
confirmed execution order.  The `int` rotation counter starts at 0 and is
kept in `{0, 1, 2}` by `counter_++; counter_ %= 3;`. -/
def tradeBookingProcessAdd (counter : ℕ) (data : ExecutionOrder) :
    ℕ × Trade :=
  let id := data.product.productId
  let bond := MakeBond id
  let trade_id := bond.ticker ++ "57747FFC" ++ toString counter
  let price := data.price
  let book := books3.getD counter ""
  let counter' := (counter + 1) % 3
  let qnt := data.hiddenQuantity + data.visibleQuantity
  let side := if data.side = OFFER then BUY else SELL
  (counter', ⟨bond, trade_id, price, book, qnt, side⟩)

/-- The trades generated by the booking listener over a stream of execution
orders, threading the rotation counter. -/
def tradeBookingTrades (counter : ℕ) : List ExecutionOrder → List Trade
  | [] => []
  | o :: rest =>
    let step := tradeBookingProcessAdd counter o
    step.2 :: tradeBookingTrades step.1 rest

/-- Embeds `BondTradeBookingService::BookTrade`: store the trade under its
trade id (overwriting any previous entry) and send `ProcessUpdate` to every
listener. -/
def BookTrade (listeners : List ℕ) (trades : List (String × Trade))
    (trade : Trade) : List (String × Trade) × List (ℕ × Trade) :=
  (mapInsert trades trade.tradeId trade, listeners.map (fun l => (l, trade)))

/-! ### Market-data connector (src/tradingsystem/Bond/BondMarketDataService.hpp,
`BondMarketDataConnector::Subscribe`) -/

/-- One comma-split feed line of the market-data file, after field
extraction: `cusip,price,quantity,side`.  The price is kept as its fractional
string, parsed by `StringToPrice` exactly as in the loop body. -/
structure MktLine where
  cusip : String
  priceStr : List Char
  qty : ℤ
  sideStr : String
deriving DecidableEq

/-- The loop-carried state of `Subscribe`: the line counter and the two
stacks being accumulated for the current run of 10 lines. -/
structure MDConnState where
  counter : ℕ
  bidStack : List Order
  offerStack : List Order
deriving DecidableEq

/-- Embeds one iteration of the `Subscribe` while-loop.  The C++ `switch` on
the side has no `break` after `case BID:`, so a BID order is pushed onto the
bid stack and then falls through into `case OFFER:`, which pushes it onto the
offer stack as well; an OFFER order is pushed onto the offer stack only.
Every 10th line closes the book (product from that line's cusip), hands it to
`OnMessage` and resets the state. -/
def mdProcessLine (st : MDConnState) (line : MktLine) :
    MDConnState × Option OrderBook :=
  let counter := st.counter + 1
  let order_price := StringToPrice line.priceStr
  let side := if line.sideStr = "BID" then BID else OFFER
  let order : Order := ⟨order_price, line.qty, side⟩
  let bid_stack := if side = BID then st.bidStack ++ [order] else st.bidStack
  let offer_stack := st.offerStack ++ [order]
  if counter % 10 = 0 then
    (⟨0, [], []⟩, some ⟨MakeBond line.cusip, bid_stack, offer_stack⟩)
  else (⟨counter, bid_stack, offer_stack⟩, none)

/-- The order books the connector hands to
`BondMarketDataService::OnMessage`, in call order, over a list of feed
lines. -/
def mdSubscribe (st : MDConnState) : List MktLine → List OrderBook
  | [] => []
  | line :: rest =>
    let step := mdProcessLine st line
    match step.2 with
    | some b => b :: mdSubscribe step.1 rest
    | none => mdSubscribe step.1 rest

/-! ### Inquiry service (src/tradingsystem/Bond/BondInquiryService.hpp) -/

/-- `Inquiry<Bond>` (missing `inquiryservice.hpp`); fields and order from
spec section 3 and the src call
`Inquiry(inquiry_id, bond, side, qnt, price, state)`. -/
structure Inquiry where
  inquiryId : String
  product : Bond
  side : Side
  quantity : ℤ
  price : ℚ
  state : InquiryState
deriving DecidableEq

/-- Observable state of the wired-up inquiry subsystem of main.cpp: the
service's stored inquiries, the `SendQuote` calls made so far, and the
inquiries captured by the historical-data listener's `ProcessAdd`. -/
structure InqSys where
  inquiries : List (String × Inquiry)
  quotes : List (String × ℚ)
  histEvents : List Inquiry
deriving DecidableEq

/-- Embeds `BondInquiryService::OnMessage` under the main.cpp wiring
(listeners `[BondInquiryListener, HistoricalDataListener]`, connector
`BondInquiryConnector`), with explicit fuel for the bounded synchronous
recursion `OnMessage → ProcessUpdate → SendQuote → Publish → OnMessage`.
Returns the new state and the chronological list of inquiry values with which
`OnMessage` was entered during the call (the call itself included).
`onMessageStep` is the loop body, abstracted over the recursive re-ingestion
call so that one unfolding step at a time can be reasoned about.

The body follows the source: store the inquiry; the `BondInquiryListener`'s
`ProcessAdd` is a no-op and its `ProcessUpdate` calls `SendQuote(id, 100)`
when the state is RECEIVED; `SendQuote` sets the price on the *stored* map
entry and hands it to `BondInquiryConnector::Publish`, which (for a RECEIVED
inquiry) re-ingests it as QUOTED and then as DONE; finally the historical
listener's `ProcessAdd` captures the (unchanged, local) inquiry value the
outer call received.  Fuel 2 is enough for every input because the two
re-ingested inquiries are not RECEIVED and so never recurse. -/
def onMessageStep (recur : InqSys → Inquiry → InqSys × List Inquiry)
    (s : InqSys) (d : Inquiry) : InqSys × List Inquiry :=
  let s0 : InqSys := {s with inquiries := mapInsert s.inquiries d.inquiryId d}
  let step1 : InqSys × List Inquiry :=
    if d.state = RECEIVED then
      match s0.inquiries.lookup d.inquiryId with
      | none => (s0, [])
      | some stored =>
        let q : Inquiry := {stored with price := 100}
        let sq : InqSys :=
          {s0 with inquiries := mapInsert s0.inquiries d.inquiryId q,
                   quotes := s0.quotes ++ [(d.inquiryId, 100)]}
        if q.state = RECEIVED then
          let d1 : Inquiry := {q with state := QUOTED}
          let r1 := recur sq d1
          let d2 : Inquiry := {d1 with state := DONE}
          let r2 := recur r1.1 d2
          (r2.1, r1.2 ++ r2.2)
        else (sq, [])
    else (s0, [])
  let s2 : InqSys := {step1.1 with histEvents := step1.1.histEvents ++ [d]}
  (s2, d :: step1.2)

def onMessageFuel : ℕ → InqSys → Inquiry → InqSys × List Inquiry
  | 0, s, _ => (s, [])
  | fuel + 1, s, d => onMessageStep (onMessageFuel fuel) s d

/-- `BondInquiryService::OnMessage` with its fuel bound discharged (see
`onMessageFuel`; `onMessageFuel_fuel_irrelevant` below shows any larger fuel
gives the same result). -/
def onMessage (s : InqSys) (d : Inquiry) : InqSys × List Inquiry :=
  onMessageFuel 2 s d

/-! ### GUI throttle (src/tradingsystem/Bond/BondGUIService.hpp,
`BondGUIListener::ProcessAdd`) -/

/-- `Price<Bond>` (missing `pricingservice.hpp`): instrument, mid price and
bid/offer spread, per spec section 3. -/
structure Price where
  product : Bond
  mid : ℚ
  bidOfferSpread : ℚ
deriving DecidableEq

/-- The mutable state of `BondGUIListener`: the count of prices forwarded so
far and the reference time point `start_` (construction time, then the time
of the last successful emission).  Wall-clock instants are modelled as
rational millisecond timestamps supplied with each call. -/
structure GUIListenerState where
  counter : ℕ
  start : ℚ
deriving DecidableEq

/-- Embeds `BondGUIListener::ProcessAdd` at wall-clock instant `now`: forward
the price (via `BondGUIService::AddPrice`, which immediately publishes it)
exactly when fewer than 100 prices have been forwarded and at least the
throttle interval has elapsed since `start_`; on success bump the counter and
reset the timer.  Returns whether the price was forwarded. -/
def guiProcessAdd (throttle : ℚ) (st : GUIListenerState) (now : ℚ) :
    GUIListenerState × Bool :=
  if st.counter < 100 ∧ now - st.start ≥ throttle then
    (⟨st.counter + 1, now⟩, true)
  else (st, false)

/-- The prices forwarded to the GUI service over a sequence of timestamped
price updates. -/
def guiRun (throttle : ℚ) (st : GUIListenerState) :
    List (ℚ × Price) → GUIListenerState × List Price
  | [] => (st, [])
  | (t, p) :: rest =>
    let step := guiProcessAdd throttle st t
    let tail := guiRun throttle step.1 rest
    (tail.1, (if step.2 then [p] else []) ++ tail.2)

/-! ### Lemmas about the decimal helpers and the dash splitter -/

theorem charToDigit_digitChar (d : ℕ) (h : d < 10) :
    charToDigit (digitChar d) = d := by
  interval_cases d <;> rfl

theorem digitChar_ne_dash (d : ℕ) : digitChar d ≠ '-' := by
  unfold digitChar
  split <;> decide

theorem digitChar_ne_plus (d : ℕ) : digitChar d ≠ '+' := by
  unfold digitChar
  split <;> decide

theorem parse_toDigitsAux (fuel : ℕ) :
    ∀ n a, n ≤ fuel →
      List.foldl (fun acc c => 10 * acc + charToDigit c) a (toDigitsAux fuel n)
        = a * 10 ^ (toDigitsAux fuel n).length + n := by
  induction fuel with
  | zero =>
    intro n a hn
    interval_cases n
    simp [toDigitsAux]
  | succ fuel ih =>
    intro n a hn
    by_cases h0 : n = 0
    · subst h0
      simp [toDigitsAux]
    · have hdiv : n / 10 ≤ fuel := by
        have := Nat.div_lt_self (Nat.pos_of_ne_zero h0) (by omega : 1 < 10)
        omega
      simp only [toDigitsAux, if_neg h0, List.foldl_append, List.foldl_cons,
        List.foldl_nil, List.length_append, List.length_cons, List.length_nil]
      rw [ih (n / 10) a hdiv, charToDigit_digitChar (n % 10) (Nat.mod_lt n (by omega))]
      calc 10 * (a * 10 ^ (toDigitsAux fuel (n / 10)).length + n / 10) + n % 10
          = a * 10 ^ ((toDigitsAux fuel (n / 10)).length + 1)
            + (10 * (n / 10) + n % 10) := by ring
        _ = a * 10 ^ ((toDigitsAux fuel (n / 10)).length + 1) + n := by
            rw [Nat.div_add_mod]

theorem parseNat_natToString (n : ℕ) : parseNat (natToString n) = n := by
  by_cases h0 : n = 0
  · subst h0; decide
  · unfold natToString parseNat
    rw [if_neg h0]
    simpa using parse_toDigitsAux (n + 1) n 0 (by omega)

theorem mem_toDigitsAux_is_digit (fuel : ℕ) :
    ∀ n c, c ∈ toDigitsAux fuel n → ∃ d, d < 10 ∧ c = digitChar d := by
  induction fuel with
  | zero => intro n c hc; simp [toDigitsAux] at hc
  | succ fuel ih =>
    intro n c hc
    by_cases h0 : n = 0
    · subst h0; simp [toDigitsAux] at hc
    · simp only [toDigitsAux, if_neg h0, List.mem_append,
        List.mem_singleton] at hc
      rcases hc with hc | hc
      · exact ih _ _ hc
      · exact ⟨n % 10, Nat.mod_lt n (by omega), hc⟩

theorem dash_not_mem_natToString (n : ℕ) : '-' ∉ natToString n := by
  by_cases h0 : n = 0
  · subst h0; decide
  · unfold natToString
    rw [if_neg h0]
    intro hm
    obtain ⟨d, _, hd⟩ := mem_toDigitsAux_is_digit (n + 1) n '-' hm
    exact digitChar_ne_dash d hd.symm

theorem splitDash_ne_nil (l : List Char) : splitDash l ≠ [] := by
  cases l with
  | nil => simp [splitDash]
  | cons c cs =>
    simp only [splitDash]
    cases h : splitDash cs with
    | nil => simp
    | cons t ts => by_cases hc : c = '-' <;> simp [hc]

theorem splitDash_no_dash (b : List Char) (hb : '-' ∉ b) : splitDash b = [b] := by
  induction b with
  | nil => rfl
  | cons c cs ih =>
    have hc : c ≠ '-' := fun h => hb (h ▸ List.mem_cons_self c cs)
    have hcs : '-' ∉ cs := fun h => hb (List.mem_cons_of_mem c h)
    simp [splitDash, ih hcs, if_neg hc]

theorem splitDash_append (a b : List Char) (ha : '-' ∉ a) :
    splitDash (a ++ '-' :: b) = a :: splitDash b := by
  induction a with
  | nil =>
    simp only [List.nil_append, splitDash]
    cases h : splitDash b with
    | nil => exact absurd h (splitDash_ne_nil b)
    | cons t ts => simp
  | cons c cs ih =>
    have hc : c ≠ '-' := fun h => ha (h ▸ List.mem_cons_self c cs)
    have hcs : '-' ∉ cs := fun h => ha (List.mem_cons_of_mem c h)
    simp only [List.cons_append, splitDash, List.append_eq, ih hcs, if_neg hc]

theorem natToString_lt_ten (t : ℕ) (h : t < 10) :
    natToString t = [digitChar t] := by
  interval_cases t <;> rfl

theorem natToString_two_digits (t : ℕ) (h10 : 10 ≤ t) (h : t ≤ 31) :
    (natToString t).length = 2 := by
  interval_cases t <;> rfl

theorem PriceToString_grid (w t e : ℕ) (ht : t ≤ 31) (he : e ≤ 7) :
    PriceToString ((w : ℚ) + t / 32 + e / 256)
      = natToString w ++ '-' :: ((if t < 10 then ['0'] else [])
          ++ natToString t ++ (if e = 4 then ['+'] else natToString e)) := by
  have htQ : (t : ℚ) ≤ 31 := by exact_mod_cast ht
  have heQ : (e : ℚ) ≤ 7 := by exact_mod_cast he
  have htQ0 : (0 : ℚ) ≤ (t : ℚ) := by positivity
  have heQ0 : (0 : ℚ) ≤ (e : ℚ) := by positivity
  have h1 : Int.floor ((w : ℚ) + t / 32 + e / 256) = (w : ℤ) := by
    rw [Int.floor_eq_iff]
    constructor
    · push_cast; linarith
    · push_cast; linarith
  have h3 : Int.floor ((t : ℚ) + e / 8) = (t : ℤ) := by
    rw [Int.floor_eq_iff]
    refine ⟨by push_cast; linarith, ?_⟩
    push_cast
    linarith
  simp only [PriceToString, h1, Int.toNat_natCast]
  have h2 : ((w : ℚ) + t / 32 + e / 256 - (w : ℕ)) / (1 / 32) = (t : ℚ) + e / 8 := by
    ring
  rw [h2, h3, Int.toNat_natCast]
  have h4 : ((t : ℚ) + e / 8 - (t : ℕ)) / (1 / 8) = (e : ℚ) := by
    ring
  rw [h4, Int.floor_natCast, Int.toNat_natCast]
  simp [List.append_assoc]

theorem StringToPrice_encoded (w t e : ℕ) (ht : t ≤ 31) (he : e ≤ 7) :
    StringToPrice (natToString w ++ '-' :: ((if t < 10 then ['0'] else [])
        ++ natToString t ++ (if e = 4 then ['+'] else natToString e)))
      = (w : ℚ) + t / 32 + e / 256 := by
  have he10 : e < 10 := by omega
  set front : List Char := (if t < 10 then ['0'] else []) ++ natToString t with hfront
  set echar : List Char := (if e = 4 then ['+'] else natToString e) with hechar
  have hfrontlen : front.length = 2 := by
    by_cases ht10 : t < 10
    · simp [hfront, if_pos ht10, natToString_lt_ten t ht10]
    · simp [hfront, if_neg ht10, natToString_two_digits t (by omega) ht]
  have hfrontdash : '-' ∉ front := by
    intro hm
    simp only [hfront, List.mem_append] at hm
    rcases hm with hm | hm
    · by_cases ht10 : t < 10 <;> simp [ht10] at hm
    · exact dash_not_mem_natToString t hm
  have hechardash : '-' ∉ echar := by
    intro hm
    simp only [hechar] at hm
    by_cases he4 : e = 4
    · simp [he4] at hm
    · rw [if_neg he4] at hm
      exact dash_not_mem_natToString e hm
  have hfracdash : '-' ∉ front ++ echar := by
    intro hm
    rcases List.mem_append.mp hm with hm | hm
    · exact hfrontdash hm
    · exact hechardash hm
  have hsplit : splitDash (natToString w ++ '-' :: (front ++ echar))
      = [natToString w, front ++ echar] := by
    rw [splitDash_append _ _ (dash_not_mem_natToString w),
      splitDash_no_dash _ hfracdash]
  have htake : (front ++ echar).take 2 = front := List.take_left' hfrontlen
  have hdrop : (front ++ echar).drop 2 = echar := List.drop_left' hfrontlen
  have hecharlen : echar.take 3 = echar := by
    apply List.take_of_length_le
    by_cases he4 : e = 4
    · simp [hechar, he4]
    · simp [hechar, if_neg he4, natToString_lt_ten e he10]
  have hfrontparse : parseNat front = t := by
    by_cases ht10 : t < 10
    · have hd : charToDigit '0' = 0 := rfl
      simp [hfront, if_pos ht10, natToString_lt_ten t ht10, parseNat,
        hd, charToDigit_digitChar t ht10]
    · simpa [hfront, if_neg ht10] using parseNat_natToString t
  have hecharparse :
      parseNat (if echar = ['+'] then ['4'] else echar) = e := by
    by_cases he4 : e = 4
    · subst he4
      have h1 : echar = ['+'] := by simp [hechar]
      rw [if_pos h1]
      decide
    · have hne : echar ≠ ['+'] := by
        rw [hechar, if_neg he4, natToString_lt_ten e he10]
        intro hcontra
        have hce : digitChar e = '+' := by injection hcontra
        exact digitChar_ne_plus e hce
      rw [if_neg hne]
      simp only [hechar, if_neg he4, natToString_lt_ten e he10]
      simp [parseNat, charToDigit_digitChar e he10]
  simp [StringToPrice, hsplit, htake, hdrop, hecharlen, hfrontparse,
    hecharparse, parseNat_natToString]

/-- C5: for every price `p = whole + t/32 + e/256` on the 1/256 grid (with
`whole : ℕ`, `t ≤ 31`, `e ≤ 7`), decoding the encoding gives the price back
exactly, `StringToPrice (PriceToString p) = p`; and whenever `e = 4` the
eighths character (the last character) of `PriceToString p` is the literal
`'+'`. -/
theorem c5_price_codec_roundtrip (w t e : ℕ) (ht : t ≤ 31) (he : e ≤ 7) :
    StringToPrice (PriceToString ((w : ℚ) + t / 32 + e / 256))
        = (w : ℚ) + t / 32 + e / 256
      ∧ (e = 4 →
        (PriceToString ((w : ℚ) + t / 32 + e / 256)).getLast? = some '+') := by
  constructor
  · rw [PriceToString_grid w t e ht he, StringToPrice_encoded w t e ht he]
  · intro he4
    subst he4
    rw [PriceToString_grid w t 4 ht he]
    have hshape :
        natToString w ++ '-' :: ((if t < 10 then ['0'] else [])
            ++ natToString t ++ (if (4 : ℕ) = 4 then ['+'] else natToString 4))
          = (natToString w ++ '-' :: ((if t < 10 then ['0'] else [])
              ++ natToString t)) ++ ['+'] := by
      simp [List.append_assoc]
    rw [hshape]
    exact List.getLast?_concat _

/-- Witness for C5 at `w = 100`, `t = 8`, `e = 4` (the spec's `100-08+`). -/
theorem c5_price_codec_roundtrip_witness :
    (8 : ℕ) ≤ 31 ∧ (4 : ℕ) ≤ 7 ∧
      StringToPrice (PriceToString (((100 : ℕ) : ℚ) + (8 : ℕ) / 32 + (4 : ℕ) / 256))
          = ((100 : ℕ) : ℚ) + (8 : ℕ) / 32 + (4 : ℕ) / 256 ∧
      (PriceToString (((100 : ℕ) : ℚ) + (8 : ℕ) / 32 + (4 : ℕ) / 256)).getLast?
          = some '+' :=
  ⟨by decide, by decide,
    (c5_price_codec_roundtrip 100 8 4 (by decide) (by decide)).1,
    (c5_price_codec_roundtrip 100 8 4 (by decide) (by decide)).2 rfl⟩

/-- C2: `SendOrder` creates a MARKET execution order, stores it under the
instrument id, notifies every registered listener, and increments the counter
if and only if `bestBidPrice - bestOfferPrice >= 1/128` for the book's best
bid and offer; otherwise nothing is created, no listener is called, and the
stored map and counter are unchanged. -/
theorem c2_sendorder_threshold_gate (listeners : List ℕ) (svc : AlgoExecState)
    (book : OrderBook) :
    (book.GetBestBidOffer.bidOrder.price - book.GetBestBidOffer.offerOrder.price
        ≥ 1 / 128 →
      ∃ algo : AlgoExecution,
        (SendOrder listeners svc book).1.algoExecs
            = mapInsert svc.algoExecs book.product.productId algo ∧
        algo.order.orderType = MARKET ∧
        (SendOrder listeners svc book).1.algoExecs.lookup book.product.productId
            = some algo ∧
        (SendOrder listeners svc book).2 = listeners.map (fun l => (l, algo)) ∧
        (SendOrder listeners svc book).1.counter = svc.counter + 1)
    ∧ (¬ (book.GetBestBidOffer.bidOrder.price
          - book.GetBestBidOffer.offerOrder.price ≥ 1 / 128) →
      SendOrder listeners svc book = (svc, [])) := by
  constructor
  · intro h
    simp only [SendOrder]
    rw [if_pos h]
    refine ⟨_, rfl, rfl, ?_, rfl, rfl⟩
    exact lookup_mapInsert _ _ _
  · intro h
    simp only [SendOrder]
    rw [if_neg h]

/-- Witness for C2: the spec's gating example — best bid 100-08 against best
offer 100-00 is crossed by 1/4 ≥ 1/128, so an order is emitted with the
counter bumped; best bid 99-16 against best offer 100-00 is not crossed, so
the state is returned untouched with no notifications. -/
theorem c2_sendorder_threshold_gate_witness :
    (SendOrder [7] ⟨[], 0⟩
        ⟨MakeBond "91282CJL6", [⟨100 + 8/32, 1000, BID⟩], [⟨100, 2000, OFFER⟩]⟩).1.counter
        = 1
    ∧ SendOrder [7] ⟨[], 0⟩
        ⟨MakeBond "91282CJL6", [⟨99 + 16/32, 1000, BID⟩], [⟨100, 2000, OFFER⟩]⟩
        = (⟨[], 0⟩, []) := by
  constructor
  · obtain ⟨algo, -, -, -, -, hcounter⟩ :=
      (c2_sendorder_threshold_gate [7] ⟨[], 0⟩
        ⟨MakeBond "91282CJL6", [⟨100 + 8/32, 1000, BID⟩], [⟨100, 2000, OFFER⟩]⟩).1
        (by norm_num [OrderBook.GetBestBidOffer, find_best_order])
    exact hcounter
  · exact (c2_sendorder_threshold_gate [7] ⟨[], 0⟩
        ⟨MakeBond "91282CJL6", [⟨99 + 16/32, 1000, BID⟩], [⟨100, 2000, OFFER⟩]⟩).2
        (by norm_num [OrderBook.GetBestBidOffer, find_best_order])

/-- C1 (code bug): with the counter even (the initial 0) and a
threshold-met book, `SendOrder` emits an order whose side is OFFER with the
quantity taken from the best offer order, and the next threshold-met update
emits BID — the opposite of the claimed (and comment-documented)
even → BID / odd → OFFER parity, because the source tests `if (counter_ % 2)`
which is true for odd counters. -/
theorem c1_sendorder_parity_codebug :
    ((SendOrder [] ⟨[], 0⟩
        ⟨MakeBond "91282CJL6", [⟨101, 1000, BID⟩], [⟨100, 2000, OFFER⟩]⟩).1.algoExecs.lookup
          "91282CJL6").map (fun a => a.order.side) = some OFFER
    ∧ ((SendOrder [] ⟨[], 0⟩
        ⟨MakeBond "91282CJL6", [⟨101, 1000, BID⟩], [⟨100, 2000, OFFER⟩]⟩).1.algoExecs.lookup
          "91282CJL6").map
        (fun a => a.order.visibleQuantity + a.order.hiddenQuantity) = some 2000
    ∧ ((SendOrder []
        (SendOrder [] ⟨[], 0⟩
          ⟨MakeBond "91282CJL6", [⟨101, 1000, BID⟩], [⟨100, 2000, OFFER⟩]⟩).1
        ⟨MakeBond "91282CJL6", [⟨101, 1000, BID⟩], [⟨100, 2000, OFFER⟩]⟩).1.algoExecs.lookup
          "91282CJL6").map (fun a => a.order.side) = some BID
    ∧ OFFER ≠ BID := by
  have hcross : ((101 : ℚ) - 100 ≥ 1 / 128) := by norm_num
  refine ⟨?_, ?_, ?_, by decide⟩ <;>
    · simp only [SendOrder, OrderBook.GetBestBidOffer, find_best_order]
      norm_num [mapInsert, List.lookup, MakeBond]

/-! ### Lemmas about depth aggregation -/

/-- The price keys of a merge map. -/
def keysOf (m : List (ℚ × ℤ)) : List ℚ := m.map (fun e => e.1)

/-- Total quantity recorded at price `p` in a merge map. -/
def qtyAt (m : List (ℚ × ℤ)) (p : ℚ) : ℤ :=
  ((m.filter (fun e => decide (e.1 = p))).map (fun e => e.2)).sum

/-- Total quantity at price `p` on one side of a book. -/
def stackQtyAt (s : List Order) (p : ℚ) : ℤ :=
  ((s.filter (fun o => decide (o.price = p))).map (fun o => o.quantity)).sum

theorem qtyAt_cons (a : ℚ × ℤ) (m : List (ℚ × ℤ)) (p : ℚ) :
    qtyAt (a :: m) p = (if a.1 = p then a.2 else 0) + qtyAt m p := by
  by_cases h : a.1 = p <;> simp [qtyAt, List.filter, h]

theorem stackQtyAt_cons (o : Order) (s : List Order) (p : ℚ) :
    stackQtyAt (o :: s) p
      = (if o.price = p then o.quantity else 0) + stackQtyAt s p := by
  by_cases h : o.price = p <;> simp [stackQtyAt, List.filter, h]

theorem keysOf_cons (e : ℚ × ℤ) (m : List (ℚ × ℤ)) :
    keysOf (e :: m) = e.1 :: keysOf m := rfl

theorem keysOf_append (m m' : List (ℚ × ℤ)) :
    keysOf (m ++ m') = keysOf m ++ keysOf m' := by
  simp [keysOf]

theorem addOrderQty_keys_of_mem (m : List (ℚ × ℤ)) (p : ℚ) (q : ℤ)
    (h : p ∈ keysOf m) : keysOf (addOrderQty m p q) = keysOf m := by
  induction m with
  | nil => simp [keysOf] at h
  | cons e rest ih =>
    by_cases he : e.1 = p
    · simp [addOrderQty, he, keysOf]
    · have hrest : p ∈ keysOf rest := by
        rcases List.mem_cons.mp h with h1 | h1
        · exact absurd h1.symm he
        · exact h1
      simp only [addOrderQty, if_neg he, keysOf, List.map_cons]
      rw [show List.map (fun e => e.1) (addOrderQty rest p q)
          = keysOf (addOrderQty rest p q) from rfl, ih hrest]
      rfl

theorem addOrderQty_of_not_mem (m : List (ℚ × ℤ)) (p : ℚ) (q : ℤ)
    (h : p ∉ keysOf m) : addOrderQty m p q = m ++ [(p, q)] := by
  induction m with
  | nil => rfl
  | cons e rest ih =>
    have he : e.1 ≠ p := fun hc => h (by simp [keysOf, hc])
    have hrest : p ∉ keysOf rest := fun hc => h (by
      rw [keysOf_cons]
      exact List.mem_cons_of_mem _ hc)
    simp [addOrderQty, if_neg he, ih hrest]

theorem addOrderQty_nodup (m : List (ℚ × ℤ)) (p : ℚ) (q : ℤ)
    (h : (keysOf m).Nodup) : (keysOf (addOrderQty m p q)).Nodup := by
  by_cases hm : p ∈ keysOf m
  · rw [addOrderQty_keys_of_mem m p q hm]; exact h
  · rw [addOrderQty_of_not_mem m p q hm]
    simp only [keysOf, List.map_append, List.map_cons, List.map_nil]
    rw [List.nodup_append]
    exact ⟨h, List.nodup_singleton p, by simpa [keysOf] using hm⟩

theorem foldl_addOrderQty_nodup (stack : List Order) :
    ∀ acc : List (ℚ × ℤ), (keysOf acc).Nodup →
      (keysOf (stack.foldl (fun m o => addOrderQty m o.price o.quantity) acc)).Nodup := by
  induction stack with
  | nil => intro acc h; exact h
  | cons o rest ih =>
    intro acc h
    exact ih _ (addOrderQty_nodup acc o.price o.quantity h)

theorem buildDepthMap_nodup (stack : List Order) :
    (keysOf (buildDepthMap stack)).Nodup :=
  foldl_addOrderQty_nodup stack [] (by simp [keysOf])

theorem foldl_addOrderQty_fresh (side : PricingSide) (m : List (ℚ × ℤ)) :
    ∀ acc : List (ℚ × ℤ), (keysOf (acc ++ m)).Nodup →
      (m.map (fun pq => Order.mk pq.1 pq.2 side)).foldl
          (fun m o => addOrderQty m o.price o.quantity) acc
        = acc ++ m := by
  induction m with
  | nil => intro acc _; simp
  | cons pq rest ih =>
    intro acc h
    rw [keysOf_append, keysOf_cons, List.nodup_append] at h
    have hfresh : pq.1 ∉ keysOf acc := by
      intro hc
      exact List.disjoint_left.mp h.2.2 hc (List.mem_cons_self _ _)
    simp only [List.map_cons, List.foldl_cons]
    rw [show addOrderQty acc (Order.mk pq.1 pq.2 side).price
        (Order.mk pq.1 pq.2 side).quantity = addOrderQty acc pq.1 pq.2 from rfl,
      addOrderQty_of_not_mem acc pq.1 pq.2 hfresh]
    have h' : (keysOf ((acc ++ [(pq.1, pq.2)]) ++ rest)).Nodup := by
      have hsh : keysOf ((acc ++ [(pq.1, pq.2)]) ++ rest)
          = keysOf acc ++ pq.1 :: keysOf rest := by
        rw [keysOf_append, keysOf_append]
        simp [keysOf]
      rw [hsh, List.nodup_append]
      exact h
    rw [ih (acc ++ [(pq.1, pq.2)]) h']
    simp

theorem buildDepthMap_of_merged (side : PricingSide) (m : List (ℚ × ℤ))
    (h : (keysOf m).Nodup) :
    buildDepthMap (m.map (fun pq => Order.mk pq.1 pq.2 side)) = m := by
  unfold buildDepthMap
  rw [foldl_addOrderQty_fresh side m [] (by simpa [keysOf] using h)]
  simp

theorem mergeStack_idem (stack : List Order) (side side' : PricingSide) :
    mergeStack (mergeStack stack side) side' = mergeStack stack side' := by
  unfold mergeStack
  rw [buildDepthMap_of_merged side (buildDepthMap stack) (buildDepthMap_nodup stack)]

theorem qtyAt_addOrderQty (m : List (ℚ × ℤ)) (p : ℚ) (q : ℤ) (p' : ℚ) :
    qtyAt (addOrderQty m p q) p' = qtyAt m p' + (if p = p' then q else 0) := by
  induction m with
  | nil =>
    rw [show addOrderQty [] p q = [(p, q)] from rfl, qtyAt_cons]
    simp [qtyAt]
  | cons e rest ih =>
    by_cases he : e.1 = p
    · subst he
      rw [show addOrderQty (e :: rest) e.1 q = (e.1, e.2 + q) :: rest from by
          simp [addOrderQty],
        qtyAt_cons, qtyAt_cons]
      by_cases hp : e.1 = p'
      · simp [hp]
        ring
      · simp [hp]
    · rw [show addOrderQty (e :: rest) p q = e :: addOrderQty rest p q from by
          simp [addOrderQty, if_neg he],
        qtyAt_cons, qtyAt_cons, ih]
      ring

theorem qtyAt_foldl (stack : List Order) :
    ∀ (acc : List (ℚ × ℤ)) (p : ℚ),
      qtyAt (stack.foldl (fun m o => addOrderQty m o.price o.quantity) acc) p
        = qtyAt acc p + stackQtyAt stack p := by
  induction stack with
  | nil => intro acc p; simp [stackQtyAt]
  | cons o rest ih =>
    intro acc p
    rw [List.foldl_cons, ih, qtyAt_addOrderQty, stackQtyAt_cons]
    ring

theorem stackQtyAt_merged (side : PricingSide) (m : List (ℚ × ℤ)) (p : ℚ) :
    stackQtyAt (m.map (fun pq => Order.mk pq.1 pq.2 side)) p = qtyAt m p := by
  induction m with
  | nil => simp [stackQtyAt, qtyAt]
  | cons e rest ih =>
    rw [List.map_cons, stackQtyAt_cons, qtyAt_cons, ih]

theorem stackQtyAt_mergeStack (stack : List Order) (side : PricingSide)
    (p : ℚ) : stackQtyAt (mergeStack stack side) p = stackQtyAt stack p := by
  unfold mergeStack
  rw [stackQtyAt_merged, buildDepthMap]
  rw [qtyAt_foldl stack [] p]
  simp [qtyAt]

theorem mergeStack_prices (stack : List Order) (side : PricingSide) :
    (mergeStack stack side).map (fun o => o.price)
      = keysOf (buildDepthMap stack) := by
  simp [mergeStack, keysOf]

/-- C6: `AggregateDepth` is idempotent — aggregating the aggregated book
gives the same book — and the aggregated book has at most one order per
distinct price on each side (its price lists have no duplicates), with the
quantity at every price equal to the total quantity the input book carries at
that price on that side. -/
theorem c6_aggregate_depth_idempotent (productId : String) (book : OrderBook) :
    AggregateDepth productId (AggregateDepth productId book)
        = AggregateDepth productId book
    ∧ ((AggregateDepth productId book).bidStack.map (fun o => o.price)).Nodup
    ∧ ((AggregateDepth productId book).offerStack.map (fun o => o.price)).Nodup
    ∧ (∀ p : ℚ,
        stackQtyAt (AggregateDepth productId book).bidStack p
            = stackQtyAt book.bidStack p
        ∧ stackQtyAt (AggregateDepth productId book).offerStack p
            = stackQtyAt book.offerStack p) := by
  refine ⟨?_, ?_, ?_, fun p => ⟨?_, ?_⟩⟩
  · unfold AggregateDepth
    simp [mergeStack_idem]
  · rw [show (AggregateDepth productId book).bidStack
        = mergeStack book.bidStack BID from rfl, mergeStack_prices]
    exact buildDepthMap_nodup _
  · rw [show (AggregateDepth productId book).offerStack
        = mergeStack book.offerStack OFFER from rfl, mergeStack_prices]
    exact buildDepthMap_nodup _
  · exact stackQtyAt_mergeStack book.bidStack BID p
  · exact stackQtyAt_mergeStack book.offerStack OFFER p

/-- A run of 10 market-data feed lines for cusip 91282CJL6: 5 BID lines
followed by 5 OFFER lines, as the feed format prescribes. -/
def mdExampleRun : List MktLine :=
  [⟨"91282CJL6", ['9','9','-','0','0','0'], 100, "BID"⟩,
   ⟨"91282CJL6", ['9','9','-','0','4','0'], 200, "BID"⟩,
   ⟨"91282CJL6", ['9','9','-','0','8','0'], 300, "BID"⟩,
   ⟨"91282CJL6", ['9','9','-','1','2','0'], 400, "BID"⟩,
   ⟨"91282CJL6", ['9','9','-','1','6','0'], 500, "BID"⟩,
   ⟨"91282CJL6", ['9','9','-','2','0','0'], 100, "OFFER"⟩,
   ⟨"91282CJL6", ['9','9','-','2','4','0'], 200, "OFFER"⟩,
   ⟨"91282CJL6", ['9','9','-','2','8','0'], 300, "OFFER"⟩,
   ⟨"91282CJL6", ['1','0','0','-','0','0','0'], 400, "OFFER"⟩,
   ⟨"91282CJL6", ['1','0','0','-','0','4','0'], 500, "OFFER"⟩]

/-- C3 (code bug): on a run of 10 feed lines (5 BID then 5 OFFER) the
connector does build exactly one order book and hand it to `OnMessage`, and
its bid stack holds exactly the 5 bid orders — but the missing `break` after
`case BID:` makes every BID order fall through into the offer push, so the
offer stack holds all 10 orders (the 5 bids followed by the 5 offers) instead
of exactly the 5 offer orders. -/
theorem c3_connector_offer_stack_codebug :
    (mdSubscribe ⟨0, [], []⟩ mdExampleRun).length = 1
    ∧ (mdSubscribe ⟨0, [], []⟩ mdExampleRun).map (fun b => b.bidStack.length)
        = [5]
    ∧ (mdSubscribe ⟨0, [], []⟩ mdExampleRun).map (fun b => b.offerStack.length)
        = [10]
    ∧ (mdSubscribe ⟨0, [], []⟩ mdExampleRun).map
          (fun b => b.offerStack.map (fun o => o.side))
        = [[BID, BID, BID, BID, BID, OFFER, OFFER, OFFER, OFFER, OFFER]]
    ∧ (10 : ℕ) ≠ 5 := by
  refine ⟨?_, ?_, ?_, ?_, by decide⟩ <;>
    simp +decide [mdSubscribe, mdProcessLine, mdExampleRun]

/-! ### Lemmas about the inquiry subsystem -/

theorem mapInsert_mapInsert {α : Type} (m : List (String × α)) (k : String)
    (v v' : α) : mapInsert (mapInsert m k v) k v' = mapInsert m k v' := by
  induction m with
  | nil => simp [mapInsert]
  | cons kv rest ih =>
    by_cases hk : kv.1 = k
    · simp [mapInsert, hk]
    · simp [mapInsert, hk, ih]

/-- An `OnMessage` on a non-RECEIVED inquiry stores it, notifies the two
listeners (only the historical capture does anything) and does not recurse. -/
theorem onMessageFuel_not_received (fuel : ℕ) (s : InqSys) (d : Inquiry)
    (h : d.state ≠ RECEIVED) :
    onMessageFuel (fuel + 1) s d
      = (⟨mapInsert s.inquiries d.inquiryId d, s.quotes,
          s.histEvents ++ [d]⟩, [d]) := by
  show onMessageStep (onMessageFuel fuel) s d = _
  simp only [onMessageStep, if_neg h]

/-- An `OnMessage` on a RECEIVED inquiry: the quote path fires once, the
connector re-ingests the inquiry as QUOTED and then DONE (each nested call
notifying the listeners), and the outer historical capture then records the
original RECEIVED value. -/
theorem onMessageFuel_received (fuel : ℕ) (s : InqSys) (d : Inquiry)
    (h : d.state = RECEIVED) :
    onMessageFuel (fuel + 2) s d
      = (⟨mapInsert s.inquiries d.inquiryId {d with price := 100, state := DONE},
          s.quotes ++ [(d.inquiryId, 100)],
          s.histEvents ++ [{d with price := 100, state := QUOTED},
            {d with price := 100, state := DONE}, d]⟩,
        [d, {d with price := 100, state := QUOTED},
          {d with price := 100, state := DONE}]) := by
  show onMessageStep (onMessageFuel (fuel + 1)) s d = _
  simp +decide only [onMessageStep, lookup_mapInsert, h, eq_self_iff_true,
    if_true, onMessageFuel_not_received, mapInsert_mapInsert]
  simp [List.append_assoc]

/-- Any fuel of at least 2 computes the same result, so `onMessage`'s fixed
fuel of 2 is not a restriction: the re-ingested inquiries are QUOTED/DONE and
never recurse further. -/
theorem onMessageFuel_ge_two (fuel : ℕ) (s : InqSys) (d : Inquiry) :
    onMessageFuel (fuel + 2) s d = onMessage s d := by
  by_cases h : d.state = RECEIVED
  · rw [onMessageFuel_received fuel s d h,
      show onMessage s d = onMessageFuel (0 + 2) s d from rfl,
      onMessageFuel_received 0 s d h]
  · rw [show fuel + 2 = (fuel + 1) + 1 from rfl,
      onMessageFuel_not_received (fuel + 1) s d h,
      show onMessage s d = onMessageFuel (1 + 1) s d from rfl,
      onMessageFuel_not_received 1 s d h]

/-- A concrete inquiry arriving in RECEIVED state. -/
def c4ExampleInquiry : Inquiry :=
  ⟨"INQ1", MakeBond "91282CJL6", BUY, 1000, 99, RECEIVED⟩

/-- C4 counterexample: ingesting a RECEIVED inquiry enters the inquiry
service's `OnMessage` three times in one call tree (the outer call plus two
synchronous re-ingestions by the connector) — not once, as "a service never
re-enters its own update path" requires. -/
theorem c4_no_reentry_counterexample :
    (onMessage ⟨[], [], []⟩ c4ExampleInquiry).2.length = 3
    ∧ (3 : ℕ) ≠ 1 := by
  constructor
  · rw [show onMessage ⟨[], [], []⟩ c4ExampleInquiry
        = onMessageFuel (0 + 2) ⟨[], [], []⟩ c4ExampleInquiry from rfl,
      onMessageFuel_received 0 _ _ rfl]
    rfl
  · decide

/-- C4 (amended): every service except the inquiry service processes an
inbound call without re-entering its own entry point (their embeddings are
plain functions with no self-call); the inquiry service's `OnMessage` is
re-entered exactly twice — with the inquiry re-ingested as QUOTED and then
DONE — when and only when the ingested inquiry is in RECEIVED state, before
the outer call returns, and the nested calls do not re-enter further. -/
theorem c4_inquiry_reentry_amended (s : InqSys) (d : Inquiry) :
    ((onMessage s d).2.length = if d.state = RECEIVED then 3 else 1)
    ∧ (onMessage s d).2.head? = some d
    ∧ (d.state = RECEIVED →
        (onMessage s d).2 = [d, {d with price := 100, state := QUOTED},
          {d with price := 100, state := DONE}])
    ∧ (d.state ≠ RECEIVED → (onMessage s d).2 = [d]) := by
  by_cases h : d.state = RECEIVED
  · rw [show onMessage s d = onMessageFuel (0 + 2) s d from rfl,
      onMessageFuel_received 0 s d h]
    exact ⟨by simp [h], rfl, fun _ => rfl, fun hc => absurd h hc⟩
  · rw [show onMessage s d = onMessageFuel (1 + 1) s d from rfl,
      onMessageFuel_not_received 1 s d h]
    exact ⟨by simp [h], rfl, fun hc => absurd hc h, fun _ => rfl⟩

/-- Witness for C4's amended statement at a concrete RECEIVED inquiry. -/
theorem c4_inquiry_reentry_amended_witness :
    c4ExampleInquiry.state = RECEIVED ∧
    (onMessage ⟨[], [], []⟩ c4ExampleInquiry).2
      = [c4ExampleInquiry,
         {c4ExampleInquiry with price := 100, state := QUOTED},
         {c4ExampleInquiry with price := 100, state := DONE}] :=
  ⟨rfl, (c4_inquiry_reentry_amended ⟨[], [], []⟩ c4ExampleInquiry).2.2.1 rfl⟩

/-- The forward transitions of the inquiry state machine actually taken by
the quote path: RECEIVED → QUOTED → DONE. -/
def stateForward (a b : InquiryState) : Prop :=
  (a, b) ∈ [(RECEIVED, QUOTED), (QUOTED, DONE)]

/-- C7: ingesting an inquiry in RECEIVED state sends exactly one quote (at
the fixed reference price 100), re-ingests the inquiry exactly twice before
the outer call returns — first as QUOTED, then as DONE, each re-ingestion
notifying the service's listeners (visible in the historical captures) — and
the stored inquiry only moves forward through RECEIVED → QUOTED → DONE,
ending DONE. -/
theorem c7_inquiry_protocol (s : InqSys) (d : Inquiry)
    (h : d.state = RECEIVED) :
    (onMessage s d).1.quotes = s.quotes ++ [(d.inquiryId, 100)]
    ∧ (onMessage s d).2 = [d, {d with price := 100, state := QUOTED},
        {d with price := 100, state := DONE}]
    ∧ (onMessage s d).2.map (fun i => i.state) = [RECEIVED, QUOTED, DONE]
    ∧ List.Chain' stateForward ((onMessage s d).2.map (fun i => i.state))
    ∧ (onMessage s d).1.histEvents
        = s.histEvents ++ [{d with price := 100, state := QUOTED},
            {d with price := 100, state := DONE}, d]
    ∧ (onMessage s d).1.inquiries.lookup d.inquiryId
        = some {d with price := 100, state := DONE} := by
  rw [show onMessage s d = onMessageFuel (0 + 2) s d from rfl,
    onMessageFuel_received 0 s d h]
  refine ⟨rfl, rfl, by simp [h], ?_, rfl, lookup_mapInsert _ _ _⟩
  simp +decide [h, stateForward]

/-- A second concrete RECEIVED inquiry, for the C7 witness. -/
def c7ExampleInquiry : Inquiry :=
  ⟨"INQ2", MakeBond "91282CJK8", SELL, 500, 99, RECEIVED⟩

/-- Witness for C7 at a concrete RECEIVED inquiry. -/
theorem c7_inquiry_protocol_witness :
    c7ExampleInquiry.state = RECEIVED ∧
    (onMessage ⟨[], [], []⟩ c7ExampleInquiry).1.quotes
        = [] ++ [(c7ExampleInquiry.inquiryId, 100)] ∧
    (onMessage ⟨[], [], []⟩ c7ExampleInquiry).2.map (fun i => i.state)
        = [RECEIVED, QUOTED, DONE] :=
  ⟨rfl, (c7_inquiry_protocol ⟨[], [], []⟩ c7ExampleInquiry rfl).1,
    (c7_inquiry_protocol ⟨[], [], []⟩ c7ExampleInquiry rfl).2.2.1⟩

/-! ### Lemmas about the GUI throttle gate -/

theorem guiRun_cons (throttle : ℚ) (st : GUIListenerState) (t : ℚ) (p : Price)
    (rest : List (ℚ × Price)) :
    guiRun throttle st ((t, p) :: rest)
      = ((guiRun throttle (guiProcessAdd throttle st t).1 rest).1,
         (if (guiProcessAdd throttle st t).2 then [p] else [])
           ++ (guiRun throttle (guiProcessAdd throttle st t).1 rest).2) := rfl

theorem guiProcessAdd_pos (throttle : ℚ) (st : GUIListenerState) (t : ℚ)
    (h : st.counter < 100 ∧ t - st.start ≥ throttle) :
    guiProcessAdd throttle st t = (⟨st.counter + 1, t⟩, true) := by
  unfold guiProcessAdd
  rw [if_pos h]

theorem guiProcessAdd_neg (throttle : ℚ) (st : GUIListenerState) (t : ℚ)
    (h : ¬ (st.counter < 100 ∧ t - st.start ≥ throttle)) :
    guiProcessAdd throttle st t = (st, false) := by
  unfold guiProcessAdd
  rw [if_neg h]

theorem guiRun_no_emission_in_window (a : ℚ) (calls : List (ℚ × Price)) :
    ∀ st : GUIListenerState, a ≤ st.start →
      (∀ c ∈ calls, a ≤ c.1 ∧ c.1 ≤ a + 1) →
      guiRun 300 st calls = (st, []) := by
  induction calls with
  | nil => intro st _ _; rfl
  | cons c rest ih =>
    intro st hst hw
    obtain ⟨t, p⟩ := c
    have hb := hw (t, p) (List.mem_cons_self _ _)
    have hcond : ¬ (st.counter < 100 ∧ t - st.start ≥ 300) := by
      rintro ⟨-, hge⟩
      have h1 : t - st.start ≤ 1 := by
        have h2 : t ≤ a + 1 := hb.2
        linarith
      linarith
    rw [guiRun_cons, guiProcessAdd_neg 300 st t hcond,
      ih st hst (fun c hc => hw c (List.mem_cons_of_mem _ hc))]
    simp

theorem guiRun_window_at_most_one (a : ℚ) (calls : List (ℚ × Price)) :
    ∀ st : GUIListenerState,
      (∀ c ∈ calls, a ≤ c.1 ∧ c.1 ≤ a + 1) →
      (guiRun 300 st calls).2.length ≤ 1 := by
  induction calls with
  | nil => intro st _; simp [guiRun]
  | cons c rest ih =>
    intro st hw
    obtain ⟨t, p⟩ := c
    have hb := hw (t, p) (List.mem_cons_self _ _)
    by_cases hcond : st.counter < 100 ∧ t - st.start ≥ 300
    · rw [guiRun_cons, guiProcessAdd_pos 300 st t hcond,
        guiRun_no_emission_in_window a rest ⟨st.counter + 1, t⟩ hb.1
          (fun c hc => hw c (List.mem_cons_of_mem _ hc))]
      simp
    · rw [guiRun_cons, guiProcessAdd_neg 300 st t hcond]
      simp only [Bool.false_eq_true, if_false, List.nil_append]
      exact ih st (fun c hc => hw c (List.mem_cons_of_mem _ hc))

theorem guiRun_capped (throttle : ℚ) (calls : List (ℚ × Price)) :
    ∀ st : GUIListenerState, 100 ≤ st.counter →
      guiRun throttle st calls = (st, []) := by
  induction calls with
  | nil => intro st _; rfl
  | cons c rest ih =>
    intro st hc
    obtain ⟨t, p⟩ := c
    have hcond : ¬ (st.counter < 100 ∧ t - st.start ≥ throttle) := by
      rintro ⟨hlt, -⟩
      omega
    rw [guiRun_cons, guiProcessAdd_neg throttle st t hcond, ih st hc]
    simp

theorem guiRun_counter (throttle : ℚ) (calls : List (ℚ × Price)) :
    ∀ st : GUIListenerState,
      (guiRun throttle st calls).1.counter
        = st.counter + (guiRun throttle st calls).2.length := by
  induction calls with
  | nil => intro st; simp [guiRun]
  | cons c rest ih =>
    intro st
    obtain ⟨t, p⟩ := c
    by_cases hcond : st.counter < 100 ∧ t - st.start ≥ throttle
    · rw [guiRun_cons, guiProcessAdd_pos throttle st t hcond]
      simp only [if_pos rfl, if_true, List.singleton_append, List.length_cons]
      rw [ih ⟨st.counter + 1, t⟩]
      dsimp only
      omega
    · rw [guiRun_cons, guiProcessAdd_neg throttle st t hcond]
      simp only [Bool.false_eq_true, if_false, List.nil_append]
      exact ih st

theorem guiRun_sublist (throttle : ℚ) (calls : List (ℚ × Price)) :
    ∀ st : GUIListenerState,
      List.Sublist (guiRun throttle st calls).2 (calls.map (fun c => c.2)) := by
  induction calls with
  | nil => intro st; simp [guiRun]
  | cons c rest ih =>
    intro st
    obtain ⟨t, p⟩ := c
    by_cases hcond : st.counter < 100 ∧ t - st.start ≥ throttle
    · rw [guiRun_cons, guiProcessAdd_pos throttle st t hcond]
      simp only [if_pos rfl, List.singleton_append, List.map_cons]
      exact List.Sublist.cons₂ p (ih ⟨st.counter + 1, t⟩)
    · rw [guiRun_cons, guiProcessAdd_neg throttle st t hcond]
      simp only [Bool.false_eq_true, if_false, List.nil_append, List.map_cons]
      exact List.Sublist.cons p (ih st)

/-- C8: the GUI gate forwards a price exactly when fewer than 100 updates
have been forwarded and at least the throttle interval has elapsed since the
tracked reference time (construction, then the last forwarded update); with a
300ms interval, any sequence of calls inside a 1ms window forwards at most
one price; once 100 have been forwarded no later call ever emits; the counter
counts exactly the forwarded prices; and the forwarded prices are a sublist
of the incoming ones — dropped updates are never replayed. -/
theorem c8_gui_throttle (throttle : ℚ) (st : GUIListenerState) (now a : ℚ)
    (calls : List (ℚ × Price)) :
    ((guiProcessAdd throttle st now).2 = true
        ↔ st.counter < 100 ∧ now - st.start ≥ throttle)
    ∧ ((∀ c ∈ calls, a ≤ c.1 ∧ c.1 ≤ a + 1) →
        (guiRun 300 st calls).2.length ≤ 1)
    ∧ (100 ≤ st.counter → guiRun throttle st calls = (st, []))
    ∧ (guiRun throttle st calls).1.counter
        = st.counter + (guiRun throttle st calls).2.length
    ∧ List.Sublist (guiRun throttle st calls).2 (calls.map (fun c => c.2)) := by
  refine ⟨?_, guiRun_window_at_most_one a calls st,
    guiRun_capped throttle calls st, guiRun_counter throttle calls st,
    guiRun_sublist throttle calls st⟩
  unfold guiProcessAdd
  split
  · rename_i h
    simpa using h
  · rename_i h
    simpa using h

/-- Witness for C8: five price updates inside one millisecond (times 300 to
300.8 with a 300ms throttle from construction time 0) forward exactly one
price — the theorem bounds it by one — and a listener that has already
forwarded 100 updates forwards nothing. -/
theorem c8_gui_throttle_witness :
    ((∀ c ∈ [((300 : ℚ), (⟨MakeBond "91282CJL6", 100, 1/2⟩ : Price)),
        ((300 + 1/5 : ℚ), (⟨MakeBond "91282CJL6", 100, 1/2⟩ : Price)),
        ((300 + 2/5 : ℚ), (⟨MakeBond "91282CJL6", 100, 1/2⟩ : Price)),
        ((300 + 3/5 : ℚ), (⟨MakeBond "91282CJL6", 100, 1/2⟩ : Price)),
        ((300 + 4/5 : ℚ), (⟨MakeBond "91282CJL6", 100, 1/2⟩ : Price))],
        (300 : ℚ) ≤ c.1 ∧ c.1 ≤ 300 + 1) →
      (guiRun 300 ⟨0, 0⟩
          [((300 : ℚ), (⟨MakeBond "91282CJL6", 100, 1/2⟩ : Price)),
           ((300 + 1/5 : ℚ), (⟨MakeBond "91282CJL6", 100, 1/2⟩ : Price)),
           ((300 + 2/5 : ℚ), (⟨MakeBond "91282CJL6", 100, 1/2⟩ : Price)),
           ((300 + 3/5 : ℚ), (⟨MakeBond "91282CJL6", 100, 1/2⟩ : Price)),
           ((300 + 4/5 : ℚ), (⟨MakeBond "91282CJL6", 100, 1/2⟩ : Price))]).2.length
        ≤ 1)
    ∧ ((100 : ℕ) ≤ (100 : ℕ) →
      guiRun 300 (⟨100, 0⟩ : GUIListenerState)
          [((300 : ℚ), (⟨MakeBond "91282CJL6", 100, 1/2⟩ : Price))]
        = (⟨100, 0⟩, []))
    ∧ (∀ c ∈ [((300 : ℚ), (⟨MakeBond "91282CJL6", 100, 1/2⟩ : Price)),
        ((300 + 1/5 : ℚ), (⟨MakeBond "91282CJL6", 100, 1/2⟩ : Price)),
        ((300 + 2/5 : ℚ), (⟨MakeBond "91282CJL6", 100, 1/2⟩ : Price)),
        ((300 + 3/5 : ℚ), (⟨MakeBond "91282CJL6", 100, 1/2⟩ : Price)),
        ((300 + 4/5 : ℚ), (⟨MakeBond "91282CJL6", 100, 1/2⟩ : Price))],
        (300 : ℚ) ≤ c.1 ∧ c.1 ≤ 300 + 1) := by
  refine ⟨?_, ?_, ?_⟩
  · exact fun hw => ((c8_gui_throttle 300 ⟨0, 0⟩ 0 300 _).2.1) hw
  · exact fun hc => ((c8_gui_throttle 300 ⟨100, 0⟩ 0 300 _).2.2.1) hc
  · intro c hc
    fin_cases hc <;> norm_num

/-! ### Lemmas about positions -/

theorem addBookQty_lookup (m : List (String × ℤ)) (book : String) (size : ℤ) :
    (addBookQty m book size).lookup book
      = some ((m.lookup book).getD 0 + size) := by
  induction m with
  | nil => simp [addBookQty, List.lookup]
  | cons e rest ih =>
    by_cases he : e.1 = book
    · have hb : (book == e.1) = true := by
        simp only [beq_iff_eq]
        exact he.symm
      simp [addBookQty, he, List.lookup, hb]
    · have hb : (book == e.1) = false := by
        simp only [beq_eq_false_iff_ne, ne_eq]
        exact fun hc => he hc.symm
      simp [addBookQty, he, List.lookup, hb, ih]

theorem addBookQty_lookup_ne (m : List (String × ℤ)) (book b' : String)
    (size : ℤ) (h : b' ≠ book) :
    (addBookQty m book size).lookup b' = m.lookup b' := by
  induction m with
  | nil =>
    have hb : (b' == book) = false := by
      simp only [beq_eq_false_iff_ne, ne_eq]
      exact h
    simp [addBookQty, List.lookup, hb]
  | cons e rest ih =>
    by_cases he : e.1 = book
    · have hb1 : (b' == book) = false := by
        simp only [beq_eq_false_iff_ne, ne_eq]
        exact h
      have hb2 : (b' == e.1) = false := by
        simp only [beq_eq_false_iff_ne, ne_eq, he]
        exact h
      simp [addBookQty, he, List.lookup, hb1, hb2]
    · simp only [addBookQty, if_neg he, List.lookup]
      cases hbb : (b' == e.1) <;> simp [ih]

theorem addBookQty_sum (m : List (String × ℤ)) (book : String) (size : ℤ) :
    ((addBookQty m book size).map (fun e => e.2)).sum
      = (m.map (fun e => e.2)).sum + size := by
  induction m with
  | nil => simp [addBookQty]
  | cons e rest ih =>
    by_cases he : e.1 = book
    · simp [addBookQty, he]
      ring
    · simp [addBookQty, he, ih]
      ring

/-- C9: a position's aggregate is the sum of its per-book entries; applying
a size to a book changes exactly that book's entry by the size (creating it
at the size if absent), leaves every other book unchanged, and shifts the
aggregate by the size; `AddTrade` applies the trade's quantity (negated for
SELL) to the trade's book of the stored (or default-created) position; and
booking BUY 100 to book TRSY1 then SELL 40 to book TRSY2 on the same
instrument yields aggregate position 60. -/
theorem c9_position_aggregate (pos : Position) (book : String) (size : ℤ)
    (b' : String) (trade : Trade) (positions : List (String × Position))
    (hb : b' ≠ book) :
    pos.GetAggregatePosition = (pos.positions.map (fun e => e.2)).sum
    ∧ (pos.AddPosition book size).positions.lookup book
        = some ((pos.positions.lookup book).getD 0 + size)
    ∧ (pos.AddPosition book size).positions.lookup b'
        = pos.positions.lookup b'
    ∧ (pos.AddPosition book size).GetAggregatePosition
        = pos.GetAggregatePosition + size
    ∧ (AddTrade [] positions trade).1
        = mapInsert positions trade.product.productId
            (((positions.lookup trade.product.productId).getD
                ⟨⟨"", "", 0, ""⟩, []⟩).AddPosition trade.book
              (if trade.side = SELL then -trade.quantity else trade.quantity))
    ∧ ((((AddTrade []
            (AddTrade []
              [("91282CJL6", ⟨MakeBond "91282CJL6", []⟩)]
              ⟨MakeBond "91282CJL6", "T1", 100, "TRSY1", 100, BUY⟩).1
            ⟨MakeBond "91282CJL6", "T2", 100, "TRSY2", 40, SELL⟩).1).lookup
          "91282CJL6").map (fun p => p.GetAggregatePosition)) = some 60 := by
  refine ⟨rfl, addBookQty_lookup pos.positions book size,
    addBookQty_lookup_ne pos.positions book b' size hb,
    addBookQty_sum pos.positions book size, rfl, ?_⟩
  simp +decide [AddTrade, mapInsert, MakeBond, Position.AddPosition,
    addBookQty, Position.GetAggregatePosition, List.lookup]

/-- Witness for C9 at concrete inputs (the two books differ). -/
theorem c9_position_aggregate_witness :
    ("TRSY2" : String) ≠ "TRSY1" ∧
    ((⟨MakeBond "91282CJL6", []⟩ : Position).AddPosition "TRSY1"
        100).GetAggregatePosition
      = (⟨MakeBond "91282CJL6", []⟩ : Position).GetAggregatePosition + 100 :=
  ⟨by decide,
    (c9_position_aggregate ⟨MakeBond "91282CJL6", []⟩ "TRSY1" 100 "TRSY2"
      ⟨MakeBond "91282CJL6", "T1", 100, "TRSY1", 100, BUY⟩ []
      (by decide)).2.2.2.1⟩

/-! ### Lemmas about trade booking -/

theorem tradeBookingProcessAdd_fst (c : ℕ) (o : ExecutionOrder) :
    (tradeBookingProcessAdd c o).1 = (c + 1) % 3 := rfl

theorem tradeBookingProcessAdd_tradeId (c : ℕ) (o : ExecutionOrder) :
    (tradeBookingProcessAdd c o).2.tradeId
      = (MakeBond o.product.productId).ticker ++ "57747FFC" ++ toString c :=
  rfl

theorem tradeBookingTrades_getElem (orders : List ExecutionOrder) :
    ∀ (c0 : ℕ), c0 < 3 → ∀ k : ℕ,
      (tradeBookingTrades c0 orders)[k]?
        = (orders[k]?).map
            (fun o => (tradeBookingProcessAdd ((c0 + k) % 3) o).2) := by
  induction orders with
  | nil => intro c0 _ k; simp [tradeBookingTrades]
  | cons o rest ih =>
    intro c0 hc k
    cases k with
    | zero =>
      show ((tradeBookingProcessAdd c0 o).2 :: tradeBookingTrades
          (tradeBookingProcessAdd c0 o).1 rest)[0]? = _
      rw [List.getElem?_cons_zero]
      rw [Nat.add_zero, Nat.mod_eq_of_lt hc]
      simp
    | succ k =>
      show ((tradeBookingProcessAdd c0 o).2 :: tradeBookingTrades
          (tradeBookingProcessAdd c0 o).1 rest)[k + 1]? = _
      rw [List.getElem?_cons_succ, List.getElem?_cons_succ,
        tradeBookingProcessAdd_fst,
        ih ((c0 + 1) % 3) (Nat.mod_lt _ (by omega)) k]
      have hcnt : ((c0 + 1) % 3 + k) % 3 = (c0 + (k + 1)) % 3 := by omega
      rw [hcnt]

/-- C10: the booking listener's trade ids are the instrument ticker followed
by "57747FFC" and the rotation counter, which starts below 3 and wraps modulo
3; two execution orders on the same instrument processed three events apart
therefore get equal trade ids, and `BookTrade` overwrites the previously
stored trade under such an id. -/
theorem c10_trade_id_rotation (orders : List ExecutionOrder) (c0 k i : ℕ)
    (o o' : ExecutionOrder) (listeners : List ℕ)
    (m : List (String × Trade)) (t1 t2 : Trade)
    (hc : c0 < 3) (ho : orders[i]? = some o) (ho' : orders[i + 3]? = some o')
    (hsame : o.product.productId = o'.product.productId)
    (hid : t1.tradeId = t2.tradeId) :
    ((tradeBookingTrades c0 orders)[k]?
        = (orders[k]?).map
            (fun od => (tradeBookingProcessAdd ((c0 + k) % 3) od).2))
    ∧ (tradeBookingProcessAdd ((c0 + k) % 3) o).2.tradeId
        = (MakeBond o.product.productId).ticker ++ "57747FFC"
            ++ toString ((c0 + k) % 3)
    ∧ (c0 + k) % 3 < 3
    ∧ ((tradeBookingTrades c0 orders)[i]?).map (fun t => t.tradeId)
        = ((tradeBookingTrades c0 orders)[i + 3]?).map (fun t => t.tradeId)
    ∧ (BookTrade listeners (BookTrade listeners m t1).1 t2).1.lookup t1.tradeId
        = some t2 := by
  refine ⟨tradeBookingTrades_getElem orders c0 hc k,
    tradeBookingProcessAdd_tradeId _ o, by omega, ?_, ?_⟩
  · rw [tradeBookingTrades_getElem orders c0 hc i,
      tradeBookingTrades_getElem orders c0 hc (i + 3), ho, ho']
    show some ((tradeBookingProcessAdd ((c0 + i) % 3) o).2.tradeId)
      = some ((tradeBookingProcessAdd ((c0 + (i + 3)) % 3) o').2.tradeId)
    rw [tradeBookingProcessAdd_tradeId, tradeBookingProcessAdd_tradeId]
    have hcnt : (c0 + i) % 3 = (c0 + (i + 3)) % 3 := by omega
    rw [hcnt, hsame]
  · show (mapInsert (mapInsert m t1.tradeId t1) t2.tradeId t2).lookup t1.tradeId
      = some t2
    rw [hid, mapInsert_mapInsert, lookup_mapInsert]

/-- Witness for C10: four market executions on the same instrument; the
trades generated for events 0 and 3 carry the same id US2Y57747FFC0, and
re-booking under an equal id replaces the stored trade. -/
theorem c10_trade_id_rotation_witness :
    ((tradeBookingTrades 0
        [⟨MakeBond "91282CJL6", BID, "A0", MARKET, 1, 100, 300, "", false⟩,
         ⟨MakeBond "91282CJL6", OFFER, "A1", MARKET, 1, 200, 600, "", false⟩,
         ⟨MakeBond "91282CJL6", BID, "A2", MARKET, 1, 300, 900, "", false⟩,
         ⟨MakeBond "91282CJL6", OFFER, "A3", MARKET, 1, 400, 1200, "", false⟩])[0]?).map
          (fun t => t.tradeId)
      = ((tradeBookingTrades 0
        [⟨MakeBond "91282CJL6", BID, "A0", MARKET, 1, 100, 300, "", false⟩,
         ⟨MakeBond "91282CJL6", OFFER, "A1", MARKET, 1, 200, 600, "", false⟩,
         ⟨MakeBond "91282CJL6", BID, "A2", MARKET, 1, 300, 900, "", false⟩,
         ⟨MakeBond "91282CJL6", OFFER, "A3", MARKET, 1, 400, 1200, "", false⟩])[3]?).map
          (fun t => t.tradeId) := by
  have h := c10_trade_id_rotation
    [⟨MakeBond "91282CJL6", BID, "A0", MARKET, 1, 100, 300, "", false⟩,
     ⟨MakeBond "91282CJL6", OFFER, "A1", MARKET, 1, 200, 600, "", false⟩,
     ⟨MakeBond "91282CJL6", BID, "A2", MARKET, 1, 300, 900, "", false⟩,
     ⟨MakeBond "91282CJL6", OFFER, "A3", MARKET, 1, 400, 1200, "", false⟩]
    0 0 0
    ⟨MakeBond "91282CJL6", BID, "A0", MARKET, 1, 100, 300, "", false⟩
    ⟨MakeBond "91282CJL6", OFFER, "A3", MARKET, 1, 400, 1200, "", false⟩
    [] [] ⟨MakeBond "91282CJL6", "X", 1, "TRSY1", 100, BUY⟩
    ⟨MakeBond "91282CJL6", "X", 1, "TRSY2", 200, SELL⟩
    (by decide) rfl rfl rfl rfl
  exact h.2.2.2.1
